import Mathlib

/-!
Verification of the runtime module patch manager of the LLaVA-CoT repository
(`inference/fixed_patch.py`, `inference/simple_patch.py`,
`inference/runtime_patch.py`, `inference/patch_example.py`).

Python dictionaries and module attribute tables are embedded as association
lists over `String` keys; `aget` / `aset` / `adel` mirror `d[k]`,
`d[k] = v` / `setattr`, and `del d[k]` / `delattr`.  Attribute values are an
opaque inductive `Value`.  The process-wide registry `sys.modules` is an
association list from dotted module paths to module attribute tables, and
the patcher's two stores (`applied_patches`, `backup_modules`) are fields of
a `Patcher` structure.  The environment (which files exist, what executing a
replacement file yields, what `importlib.import_module` returns for paths
not yet registered) is a record of functions, so every run on a concrete
environment is computable.
-/

/-- Dictionary lookup `d[k]` (first binding wins, as keys are unique in a
Python dict). -/
def aget {κ α : Type} [DecidableEq κ] (m : List (κ × α)) (k : κ) : Option α :=
  match m with
  | [] => none
  | (k', v) :: rest => if k' = k then some v else aget rest k

/-- Dictionary write `d[k] = v` / `setattr`: replace the binding of `k` if
present, otherwise append it. -/
def aset {κ α : Type} [DecidableEq κ] (m : List (κ × α)) (k : κ) (v : α) :
    List (κ × α) :=
  match m with
  | [] => [(k, v)]
  | (k', v') :: rest => if k' = k then (k, v) :: rest else (k', v') :: aset rest k v

/-- Dictionary delete `del d[k]` / `delattr`: remove every binding of `k`
(at most one exists when keys are unique). -/
def adel {κ α : Type} [DecidableEq κ] (m : List (κ × α)) (k : κ) :
    List (κ × α) :=
  match m with
  | [] => []
  | (k', v') :: rest => if k' = k then adel rest k else (k', v') :: adel rest k

/-- Write all the bindings of `l` onto `t` in order (a `for k, v in l: t[k] = v`
loop). -/
def writeAll {κ α : Type} [DecidableEq κ] (t : List (κ × α)) (l : List (κ × α)) :
    List (κ × α) :=
  l.foldl (fun t p => aset t p.1 p.2) t

@[simp] theorem aget_nil {κ α : Type} [DecidableEq κ] (k : κ) :
    aget ([] : List (κ × α)) k = none := rfl

theorem aget_aset_self {κ α : Type} [DecidableEq κ] (m : List (κ × α)) (k : κ) (v : α) :
    aget (aset m k v) k = some v := by
  induction m with
  | nil => simp [aget, aset]
  | cons p rest ih =>
    by_cases h : p.1 = k
    · simp [aget, aset, h]
    · simp [aget, aset, h, ih]

theorem aget_aset_ne {κ α : Type} [DecidableEq κ] (m : List (κ × α)) (k k' : κ) (v : α)
    (h : k' ≠ k) : aget (aset m k v) k' = aget m k' := by
  induction m with
  | nil => simp [aget, aset, Ne.symm h]
  | cons p rest ih =>
    by_cases hp : p.1 = k
    · subst hp
      simp [aget, aset, Ne.symm h]
    · by_cases hp' : p.1 = k'
      · simp [aget, aset, hp, hp', h]
      · simp [aget, aset, hp, hp', ih]

theorem aget_adel_self {κ α : Type} [DecidableEq κ] (m : List (κ × α)) (k : κ) :
    aget (adel m k) k = none := by
  induction m with
  | nil => simp [adel]
  | cons p rest ih =>
    by_cases h : p.1 = k
    · simp [adel, h, ih]
    · simp [adel, aget, h, ih]

theorem aget_adel_ne {κ α : Type} [DecidableEq κ] (m : List (κ × α)) (k k' : κ)
    (h : k' ≠ k) : aget (adel m k) k' = aget m k' := by
  induction m with
  | nil => simp [adel]
  | cons p rest ih =>
    by_cases hp : p.1 = k
    · subst hp
      simp [adel, aget, Ne.symm h, ih]
    · simp [adel, aget, hp, ih]

theorem mem_keys_of_aget {κ α : Type} [DecidableEq κ] {m : List (κ × α)} {k : κ} {v : α}
    (h : aget m k = some v) : k ∈ m.map Prod.fst := by
  induction m with
  | nil => simp [aget] at h
  | cons p rest ih =>
    by_cases hp : p.1 = k
    · simp only [List.map_cons, List.mem_cons]
      exact Or.inl hp.symm
    · simp only [aget, if_neg hp] at h
      simp only [List.map_cons, List.mem_cons]
      exact Or.inr (ih h)

theorem aget_of_not_mem_keys {κ α : Type} [DecidableEq κ] {m : List (κ × α)} {k : κ}
    (h : k ∉ m.map Prod.fst) : aget m k = none := by
  induction m with
  | nil => rfl
  | cons p rest ih =>
    simp only [List.map_cons, List.mem_cons, not_or] at h
    simp [aget, Ne.symm h.1, ih h.2]

theorem aget_isSome_iff_mem_keys {κ α : Type} [DecidableEq κ] (m : List (κ × α)) (k : κ) :
    (aget m k).isSome = true ↔ k ∈ m.map Prod.fst := by
  induction m with
  | nil => simp [aget]
  | cons p rest ih =>
    by_cases hp : p.1 = k
    · simp [aget, hp]
    · simp [aget, hp, ih, Ne.symm hp]

theorem aget_writeAll_not_mem {κ α : Type} [DecidableEq κ] (l : List (κ × α)) :
    ∀ (t : List (κ × α)) (k : κ), k ∉ l.map Prod.fst →
      aget (writeAll t l) k = aget t k := by
  induction l with
  | nil => intro t k _; rfl
  | cons p rest ih =>
    intro t k h
    simp only [List.map_cons, List.mem_cons, not_or] at h
    show aget (writeAll (aset t p.1 p.2) rest) k = aget t k
    rw [ih _ k h.2, aget_aset_ne t p.1 k p.2 h.1]

theorem aget_writeAll_mem_nodup {κ α : Type} [DecidableEq κ] (l : List (κ × α)) :
    ∀ (t : List (κ × α)) (k : κ) (v : α), (l.map Prod.fst).Nodup →
      (k, v) ∈ l → aget (writeAll t l) k = some v := by
  induction l with
  | nil => intro t k v _ h; simp at h
  | cons p rest ih =>
    intro t k v hnd hmem
    simp only [List.map_cons, List.nodup_cons] at hnd
    rcases List.mem_cons.mp hmem with heq | htail
    · subst heq
      show aget (writeAll (aset t k v) rest) k = some v
      rw [aget_writeAll_not_mem rest _ k hnd.1]
      exact aget_aset_self t k v
    · exact ih _ k v hnd.2 htail

/-! ## Data model: attribute values, modules, the module registry -/

/-- An opaque Python attribute value (classes, functions and plain values are
all transplanted identically, so only equality matters to the patcher). -/
inductive Value where
  | nat : Nat → Value
  | str : String → Value
  | bool : Bool → Value
deriving DecidableEq

/-- A module object: its attribute table (`__dict__`), name to value. -/
abbrev PyModule := List (String × Value)

/-- The process-wide `sys.modules` registry: dotted path to module object. -/
abbrev SysModules := List (String × PyModule)

/-- Keep the first occurrence of every element (the attribute names of a
dict, each once, in insertion order).  A structurally recursive stand-in
for `List.dedup`, so that concrete runs reduce inside the kernel. -/
def uniqKeys (l : List String) : List String :=
  match l with
  | [] => []
  | k :: rest => k :: (uniqKeys rest).filter (fun x => x ≠ k)

/-- `attr_name.startswith('_')`: the name begins with an underscore. -/
def isInternalName (n : String) : Bool :=
  match n.data with
  | c :: _ => c = '_'
  | [] => false

/-- `dir(m)`: the attribute names of a module (each once; `dir` sorts them,
but the patcher only iterates, and the order among independent attributes is
not observable). -/
def dirNames (m : PyModule) : List String :=
  uniqKeys (m.map Prod.fst)

/-- The public attribute names of a module: the `dir` names that do not
start with an underscore (`if not attr_name.startswith('_')`). -/
def publicNames (m : PyModule) : List String :=
  (dirNames m).filter (fun n => !isInternalName n)

/-- The public attributes of a module with their values: the
`for attr_name in dir(m): if not attr_name.startswith('_'): d[attr_name] =
getattr(m, attr_name)` loop used both for the backup snapshot
(fixed_patch.py lines 80-85) and conceptually for the transplant. -/
def publicAttrs (m : PyModule) : List (String × Value) :=
  (publicNames m).filterMap (fun n => (aget m n).map (fun v => (n, v)))

/-- The symbol transplant loop (fixed_patch.py lines 88-92): for every
public attribute of `src`, `setattr(tgt, name, getattr(src, name))` and
count it.  Returns `(patch_count, mutated target)`. -/
def transplant (src tgt : PyModule) : Nat × PyModule :=
  (publicAttrs src).foldl (fun acc p => (acc.1 + 1, aset acc.2 p.1 p.2)) (0, tgt)

/-! ## The environment: files, imports, replacement-module execution -/

/-- A Patch Record (fixed_patch.py lines 102-106): what
`self.applied_patches[module_path]` stores. -/
structure PatchRecord where
  source_file : String
  patch_count : Nat
  backup_available : Bool
deriving DecidableEq

/-- The patcher's own stores (fixed_patch.py lines 21-23):
`self.applied_patches` and `self.backup_modules`. -/
structure Patcher where
  applied_patches : List (String × PatchRecord)
  backup_modules : List (String × List (String × Value))
deriving DecidableEq

/-- The fixed parts of the process outside the patcher: which replacement
files exist, whether a module spec can be built for a file, what executing a
replacement file yields (`none` models the execution raising), and what
`importlib.import_module` produces for a path not yet in `sys.modules`
(`none` models `ImportError`). -/
structure Env where
  fileExists : String → Bool
  specOk : String → Bool
  execCustom : String → Option PyModule
  importFresh : String → Option PyModule

/-- `importlib.import_module(path)`: returns the already-registered module
if `path` is in `sys.modules`, otherwise imports it and registers it. -/
def importMod (env : Env) (sys : SysModules) (path : String) :
    Option (PyModule × SysModules) :=
  match aget sys path with
  | some m => some (m, sys)
  | none =>
    match env.importFresh path with
    | some m => some (m, aset sys path m)
    | none => none

/-- `path.split('.')` on character lists: a structurally recursive
equivalent of `String.splitOn "."`. -/
def splitDots (s : List Char) : List (List Char) :=
  match s with
  | [] => [[]]
  | c :: rest =>
    if c = '.' then [] :: splitDots rest
    else
      match splitDots rest with
      | [] => [[c]]
      | h :: t => (c :: h) :: t

/-- The proper dotted prefixes of a module path, shortest first
(fixed_patch.py line 64: `module_path.split('.')[:-1]` accumulated). -/
def parentPrefixes (path : String) : List String :=
  let parts := ((splitDots path.data).map (fun l => String.mk l)).dropLast
  (List.range parts.length).map (fun i => String.intercalate "." (parts.take (i + 1)))

/-- fixed_patch.py lines 64-71: for each parent package path not yet in
`sys.modules`, try to import it and register it; on `ImportError`, pass. -/
def injectParents (env : Env) (sys : SysModules) (path : String) : SysModules :=
  (parentPrefixes path).foldl
    (fun s p =>
      if (aget s p).isSome then s
      else
        match env.importFresh p with
        | some m => aset s p m
        | none => s)
    sys

/-- The failure-prone first half of `patch_module_from_file`
(fixed_patch.py lines 33-78): check the file exists, then import
`transformers` and the target module, build the module spec, register
parent packages,
execute the replacement module.  On an exception the `except` block returns
`False`; side effects on `sys.modules` performed before the raise persist,
so the error value carries the registry as mutated so far. -/
def loadPhase (env : Env) (sys : SysModules) (module_path custom_file_path : String) :
    Except SysModules (PyModule × PyModule × SysModules) :=
  if !(env.fileExists custom_file_path) then .error sys
  else
    match importMod env sys "transformers" with
    | none => .error sys
    | some (_, sys1) =>
      match importMod env sys1 module_path with
      | none => .error sys1
      | some (target, sys2) =>
        if !(env.specOk custom_file_path) then .error sys2
        else
          let sys3 := injectParents env sys2 module_path
          match env.execCustom custom_file_path with
          | none => .error sys3
          | some custom => .ok (target, custom, sys3)

/-- `TransformersRuntimePatcher.patch_module_from_file`
(fixed_patch.py lines 25-115).  After `loadPhase` succeeds: optionally
snapshot the target's public attributes into `backup_modules` (lines
80-85; note the unconditional overwrite of any previous snapshot),
transplant the replacement's public attributes (lines 88-92), set the two
patch markers (lines 95-96), update `sys.modules[module_path]` (line 99, to
the same, now mutated, object), and record the Patch Record (lines
102-106).  Returns `(success, patcher, sys.modules)`. -/
def patch_module_from_file (env : Env) (p : Patcher) (sys : SysModules)
    (module_path custom_file_path : String) (backup : Bool) :
    Bool × Patcher × SysModules :=
  match loadPhase env sys module_path custom_file_path with
  | .error sys' => (false, p, sys')
  | .ok (target, custom, sys') =>
    let bm := aset p.backup_modules module_path (publicAttrs target)
    let p1 := if backup then { p with backup_modules := bm } else p
    let r := transplant custom target
    let target2 := aset (aset r.2 "_runtime_patched" (Value.bool true))
        "_patch_source" (Value.str custom_file_path)
    let sys2 := aset sys' module_path target2
    let ap := aset p1.applied_patches module_path ⟨custom_file_path, r.1, backup⟩
    let p2 := { p1 with applied_patches := ap }
    (true, p2, sys2)

/-- `TransformersRuntimePatcher.restore_module` (fixed_patch.py lines
130-163): fail if the path has no Patch Record, or the record has no
backup, or `sys.modules[module_path]` / `self.backup_modules[module_path]`
raise `KeyError` (caught by the `except`); otherwise write every backed-up
attribute back, delete the two patch markers if present, and delete the
Patch Record and the backup. -/
def restore_module (p : Patcher) (sys : SysModules) (module_path : String) :
    Bool × Patcher × SysModules :=
  match aget p.applied_patches module_path with
  | none => (false, p, sys)
  | some record =>
    if !record.backup_available then (false, p, sys)
    else
      match aget sys module_path with
      | none => (false, p, sys)
      | some target =>
        match aget p.backup_modules module_path with
        | none => (false, p, sys)
        | some backup =>
          let target1 := writeAll target backup
          let target2 := adel (adel target1 "_runtime_patched") "_patch_source"
          let sys1 := aset sys module_path target2
          (true,
           { applied_patches := adel p.applied_patches module_path,
             backup_modules := adel p.backup_modules module_path },
           sys1)

/-- `TransformersRuntimePatcher.verify_patch` (fixed_patch.py lines
177-185): the path is in `sys.modules` and the module carries the
`_runtime_patched` marker. -/
def verify_patch (sys : SysModules) (module_path : String) : Bool :=
  match aget sys module_path with
  | some m => (aget m "_runtime_patched").isSome
  | none => false

/-- `TransformersRuntimePatcher.list_patches` (fixed_patch.py lines
173-175) in the value model: `self.applied_patches.copy()`.  (The aliasing
behaviour of the shallow copy is modelled separately in `HeapModel`.) -/
def list_patches (p : Patcher) : List (String × PatchRecord) :=
  p.applied_patches

/-- The fixed target path of the convenience methods
(`"transformers.models.mllama.processing_mllama"`). -/
def mllamaTarget : String := "transformers.models.mllama.processing_mllama"

/-- The default replacement file used when `custom_file_path is None`
(fixed_patch.py lines 121-124: `Path(__file__).parent /
"processing_mllama.py"`); its concrete location depends on where the
patcher file lives, so it is a field of the environment. -/
structure EnvWithDefault extends Env where
  defaultProcessorPath : String

/-- `TransformersRuntimePatcher.patch_mllama_processor`
(fixed_patch.py lines 117-128): patch the fixed mllama target from the
given file, or from the default sibling file when none is given; `backup`
is left at its default `True`. -/
def patch_mllama_processor (env : EnvWithDefault) (p : Patcher) (sys : SysModules)
    (custom_file_path : Option String) : Bool × Patcher × SysModules :=
  let path := custom_file_path.getD env.defaultProcessorPath
  patch_module_from_file env.toEnv p sys mllamaTarget path true

/-! ## The scoped patch context (`patch_example.patched_mllama_processor`)

The context manager's calls into the patcher are the observable contract,
so the embedding records them as a trace of events.  The body is an
arbitrary function of the yielded apply result and the module registry; it
returns `Except Unit α`, where `.error ()` models the body raising (the
`finally` block runs on every exit path). -/

/-- One call made by the scoped context into the patcher. -/
inductive PEvent where
  | applyCall (target : String) (ok : Bool)
  | restoreCall (target : String) (ok : Bool)
deriving DecidableEq

/-- `patched_mllama_processor` (patch_example.py lines 17-55): construct a
fresh `TransformersRuntimePatcher()`, apply the patch, yield the apply
result to the body, and in the `finally` block call `restore_module` on the
same fixed target path if and only if the apply succeeded.  Returns the
body's outcome, the final module registry, and the trace of patcher calls. -/
def patched_mllama_processor {α : Type} (env : EnvWithDefault) (sys : SysModules)
    (custom_file_path : Option String)
    (body : Bool → SysModules → Except Unit α × SysModules) :
    Except Unit α × SysModules × List PEvent :=
  let patcher : Patcher := ⟨[], []⟩
  let r := patch_mllama_processor env patcher sys custom_file_path
  let b := body r.1 r.2.2
  if r.1 then
    let rr := restore_module r.2.1 b.2 mllamaTarget
    (b.1, rr.2.2, [PEvent.applyCall mllamaTarget r.1,
                   PEvent.restoreCall mllamaTarget rr.1])
  else
    (b.1, b.2, [PEvent.applyCall mllamaTarget r.1])

/-! ## The import rewriter (`simple_patch.patch_mllama_processor_simple`)

simple_patch.py lines 35-55 rewrite the replacement file's relative imports
by five fixed textual substitutions (`content.replace(old, new)`). -/

/-- Replace every non-overlapping occurrence of `pat` by `rep`, scanning
left to right: Python's `str.replace` on character lists.  The `fuel`
argument makes the recursion structural (each step consumes at least one
character, so `fuel = s.length` never runs out). -/
def replaceListAux (fuel : Nat) (s pat rep : List Char) : List Char :=
  match fuel, s with
  | 0, s => s
  | _ + 1, [] => []
  | fuel + 1, c :: rest =>
    if pat ≠ [] ∧ pat.isPrefixOf (c :: rest) then
      rep ++ replaceListAux fuel ((c :: rest).drop pat.length) pat rep
    else
      c :: replaceListAux fuel rest pat rep

/-- `content.replace(old, new)` on strings. -/
def pyReplace (s pat rep : String) : String :=
  ⟨replaceListAux s.data.length s.data pat.data rep.data⟩

/-- The five `content.replace(...)` calls of simple_patch.py lines 35-55,
applied in source order. -/
def rewriteRelativeImports (content : String) : String :=
  let c1 := pyReplace content
    "from ...feature_extraction_utils import BatchFeature"
    "from transformers.feature_extraction_utils import BatchFeature"
  let c2 := pyReplace c1
    "from ...image_utils import ImageInput"
    "from transformers.image_utils import ImageInput"
  let c3 := pyReplace c2
    "from ...processing_utils import ImagesKwargs, ProcessingKwargs, ProcessorMixin, Unpack"
    "from transformers.processing_utils import ImagesKwargs, ProcessingKwargs, ProcessorMixin, Unpack"
  let c4 := pyReplace c3
    "from ...tokenization_utils_base import"
    "from transformers.tokenization_utils_base import"
  pyReplace c4
    "from .image_processing_mllama import make_list_of_images"
    "from transformers.models.mllama.image_processing_mllama import make_list_of_images"

/-- Modelled from the spec: the resolution rule the spec states for
relative imports ("Resolution walks up one package level per leading dot,
then appends the remaining relative path"): from the module's parent
package, walk up `dots - 1` further levels, then append `rest`.  This is
the spec-side definition used to compare the textual rewriter against the
claimed behaviour. -/
def specResolveRelative (modulePath : String) (dots : Nat) (rest : String) : String :=
  let pkg := ((splitDots modulePath.data).map (fun l => String.mk l)).dropLast
  let base := pkg.take (pkg.length + 1 - dots)
  String.intercalate "." (base ++ [rest])

/-! ## Executing a replacement module (for the Symbol Transplanter claims)

A replacement module's namespace, after top-level execution, holds both the
names it imported from other modules and the names its own top level
defined (a later definition shadows an earlier import of the same name, as
in Python).  `dir` on the resulting module enumerates all of them. -/

/-- The namespace produced by executing a replacement module whose top
level first imports `importedAttrs` and then defines `definedAttrs`. -/
def execNamespace (importedAttrs definedAttrs : List (String × Value)) : PyModule :=
  writeAll (writeAll [] importedAttrs) definedAttrs

/-! ## Heap model of `list_patches` (the shallow `dict.copy()`)

`list_patches` returns `self.applied_patches.copy()`.  The copy is shallow:
the top-level dict is a fresh object, but the per-target record dicts are
shared by reference.  The value model above cannot express aliasing, so
this small heap model makes dict identity explicit: the top-level dicts
live at `Nat` addresses in `dicts` (each mapping a target path to the
address of its record), and the record objects live at `Nat` addresses in
`recs`.  `fresh` is the next unused address. -/

namespace HeapModel

/-- The heap: top-level dict objects, record objects, next fresh address. -/
structure Heap where
  dicts : List (Nat × List (String × Nat))
  recs : List (Nat × PatchRecord)
  fresh : Nat
deriving DecidableEq

/-- `self.applied_patches.copy()` (fixed_patch.py lines 173-175): allocate
a fresh top-level dict holding the same entries — the same target paths
bound to the same record addresses — and return its address. -/
def list_patches (h : Heap) (appliedAddr : Nat) : Nat × Heap :=
  let entries := (aget h.dicts appliedAddr).getD []
  (h.fresh, { h with dicts := aset h.dicts h.fresh entries, fresh := h.fresh + 1 })

/-- A caller mutates a record object in place (e.g.
`patches[path]['patch_count'] = n` rebuilt as a whole-record write). -/
def recWrite (h : Heap) (addr : Nat) (r : PatchRecord) : Heap :=
  { h with recs := aset h.recs addr r }

/-- A caller adds or rebinds an entry of a top-level dict object
(`patches[path] = record`). -/
def dictWrite (h : Heap) (addr : Nat) (k : String) (recAddr : Nat) : Heap :=
  { h with dicts := aset h.dicts addr (aset ((aget h.dicts addr).getD []) k recAddr) }

/-- The record the manager itself sees for `path`: follow its own
`applied_patches` dict to the record object. -/
def managerRecord (h : Heap) (appliedAddr : Nat) (path : String) :
    Option PatchRecord :=
  match aget h.dicts appliedAddr with
  | none => none
  | some d =>
    match aget d path with
    | none => none
    | some recAddr => aget h.recs recAddr

end HeapModel

/-! ## Support lemmas -/

theorem mem_uniqKeys {l : List String} {x : String} : x ∈ uniqKeys l ↔ x ∈ l := by
  induction l with
  | nil => simp [uniqKeys]
  | cons k rest ih =>
    simp only [uniqKeys, List.mem_cons, List.mem_filter]
    constructor
    · rintro (rfl | ⟨hx, _⟩)
      · exact Or.inl rfl
      · exact Or.inr (ih.mp hx)
    · rintro (rfl | hx)
      · exact Or.inl rfl
      · by_cases hk : x = k
        · exact Or.inl hk
        · exact Or.inr ⟨ih.mpr hx, by simp [hk]⟩

theorem nodup_uniqKeys (l : List String) : (uniqKeys l).Nodup := by
  induction l with
  | nil => simp [uniqKeys]
  | cons k rest ih =>
    simp only [uniqKeys, List.nodup_cons]
    refine ⟨fun hk => ?_, ih.filter _⟩
    have := (List.mem_filter.mp hk).2
    simp at this

theorem publicNames_nodup (m : PyModule) : (publicNames m).Nodup :=
  (nodup_uniqKeys _).filter _

theorem mem_publicNames {m : PyModule} {n : String} :
    n ∈ publicNames m ↔ n ∈ m.map Prod.fst ∧ isInternalName n = false := by
  simp only [publicNames, dirNames, List.mem_filter, mem_uniqKeys,
    Bool.not_eq_true']

theorem mem_publicAttrs {m : PyModule} {k : String} {v : Value} :
    (k, v) ∈ publicAttrs m ↔ aget m k = some v ∧ isInternalName k = false := by
  simp only [publicAttrs, List.mem_filterMap]
  constructor
  · rintro ⟨n, hn, hf⟩
    rcases Option.map_eq_some'.mp hf with ⟨v', hv', heq⟩
    cases heq
    exact ⟨hv', (mem_publicNames.mp hn).2⟩
  · rintro ⟨hv, hpub⟩
    exact ⟨k, mem_publicNames.mpr ⟨mem_keys_of_aget hv, hpub⟩, by rw [hv]; rfl⟩

theorem publicAttrs_keys_nodup (m : PyModule) :
    ((publicAttrs m).map Prod.fst).Nodup := by
  have h : ∀ (l : List String), l.Nodup →
      ((l.filterMap (fun n => (aget m n).map (fun v => (n, v)))).map Prod.fst).Nodup := by
    intro l hl
    induction l with
    | nil => simp
    | cons a rest ih =>
      simp only [List.nodup_cons] at hl
      simp only [List.filterMap_cons]
      match hv : aget m a with
      | none => simpa using ih hl.2
      | some v =>
        simp only [Option.map_some', List.map_cons, List.nodup_cons]
        refine ⟨fun hmem => ?_, ih hl.2⟩
        rcases List.mem_map.mp hmem with ⟨p, hp, hfst⟩
        rcases List.mem_filterMap.mp hp with ⟨n, hn, hf⟩
        rcases Option.map_eq_some'.mp hf with ⟨v', _, heq⟩
        subst heq
        have hna : n = a := hfst
        subst hna
        exact hl.1 hn
  exact h (publicNames m) (publicNames_nodup m)

theorem transplant_eq (src tgt : PyModule) :
    transplant src tgt = ((publicAttrs src).length, writeAll tgt (publicAttrs src)) := by
  have h : ∀ (l : List (String × Value)) (n : Nat) (t : PyModule),
      l.foldl (fun acc p => (acc.1 + 1, aset acc.2 p.1 p.2)) (n, t)
        = (n + l.length, writeAll t l) := by
    intro l
    induction l with
    | nil => intro n t; simp [writeAll]
    | cons p rest ih =>
      intro n t
      show rest.foldl _ (n + 1, aset t p.1 p.2) = _
      rw [ih]
      have h1 : n + 1 + rest.length = n + (rest.length + 1) := by omega
      rw [h1]
      rfl
  have := h (publicAttrs src) 0 tgt
  simpa [transplant] using this

/-- A public name is distinct from both patch-marker names. -/
theorem public_ne_markers {n : String} (h : isInternalName n = false) :
    n ≠ "_runtime_patched" ∧ n ≠ "_patch_source" := by
  constructor <;> · rintro rfl; simp [isInternalName] at h

theorem aget_mem {κ α : Type} [DecidableEq κ] {m : List (κ × α)} {k : κ} {v : α}
    (h : aget m k = some v) : (k, v) ∈ m := by
  induction m with
  | nil => simp [aget] at h
  | cons p rest ih =>
    by_cases hp : p.1 = k
    · simp only [aget, if_pos hp] at h
      cases h
      subst hp
      exact List.mem_cons_self p rest
    · simp only [aget, if_neg hp] at h
      exact List.mem_cons_of_mem _ (ih h)

theorem publicAttrs_length (m : PyModule) :
    (publicAttrs m).length = (publicNames m).length := by
  have h : ∀ (l : List String), (∀ n ∈ l, n ∈ m.map Prod.fst) →
      (l.filterMap (fun n => (aget m n).map (fun v => (n, v)))).length = l.length := by
    intro l
    induction l with
    | nil => intro _; rfl
    | cons a rest ih =>
      intro hl
      have ha : a ∈ m.map Prod.fst := hl a (List.mem_cons_self a rest)
      have : (aget m a).isSome = true := (aget_isSome_iff_mem_keys m a).mpr ha
      match hv : aget m a with
      | none => rw [hv] at this; simp at this
      | some v =>
        simp only [List.filterMap_cons, hv, Option.map_some', List.length_cons]
        rw [ih (fun n hn => hl n (List.mem_cons_of_mem _ hn))]
  exact h (publicNames m) (fun n hn => (mem_publicNames.mp hn).1)

theorem importMod_of_mem {env : Env} {sys : SysModules} {path : String} {m : PyModule}
    (h : aget sys path = some m) : importMod env sys path = some (m, sys) := by
  simp [importMod, h]

theorem importMod_preserves {env : Env} {sys sys' : SysModules} {path : String}
    {m : PyModule} (k : String) (hk : k ≠ path)
    (h : importMod env sys path = some (m, sys')) : aget sys' k = aget sys k := by
  unfold importMod at h
  match hs : aget sys path with
  | some m2 =>
    rw [hs] at h
    simp only [Option.some.injEq, Prod.mk.injEq] at h
    rw [← h.2]
  | none =>
    rw [hs] at h
    match hf : env.importFresh path with
    | some m2 =>
      rw [hf] at h
      simp only [Option.some.injEq, Prod.mk.injEq] at h
      rw [← h.2]
      exact aget_aset_ne sys path k m2 hk
    | none =>
      rw [hf] at h
      cases h

theorem foldl_inject_preserves (env : Env) :
    ∀ (l : List String) (sys : SysModules) (k : String), (aget sys k).isSome →
      aget ((l.foldl (fun s p =>
        if (aget s p).isSome then s
        else
          match env.importFresh p with
          | some m => aset s p m
          | none => s) sys)) k = aget sys k := by
  intro l
  induction l with
  | nil => intro sys k _; rfl
  | cons q rest ih =>
    intro sys k hk
    show aget (rest.foldl _ (if (aget sys q).isSome then sys else _)) k = aget sys k
    by_cases hq : (aget sys q).isSome
    · rw [if_pos hq]
      exact ih sys k hk
    · rw [if_neg hq]
      match hf : env.importFresh q with
      | none =>
        exact ih sys k hk
      | some m =>
        have hkq : k ≠ q := by
          rintro rfl
          rw [(Option.isSome_iff_exists.mp hk).choose_spec] at hq
          simp at hq
        have h1 : aget (aset sys q m) k = aget sys k := aget_aset_ne sys q k m hkq
        rw [ih (aset sys q m) k (by rw [h1]; exact hk), h1]

theorem injectParents_preserves {env : Env} {sys : SysModules} {path k : String}
    (hk : (aget sys k).isSome) :
    aget (injectParents env sys path) k = aget sys k :=
  foldl_inject_preserves env (parentPrefixes path) sys k hk

/-- If the target path is already registered (and is not the
`"transformers"` key touched by the `import transformers` step), a
successful `loadPhase` hands exactly that registered module object to the
patching steps. -/
theorem loadPhase_target_of_mem {env : Env} {sys : SysModules} {mp cfp : String}
    {t c : PyModule} {s' : SysModules} {T : PyModule}
    (hmp : mp ≠ "transformers") (hmem : aget sys mp = some T)
    (h : loadPhase env sys mp cfp = .ok (t, c, s')) : t = T := by
  unfold loadPhase at h
  by_cases hf : env.fileExists cfp
  · simp only [hf, Bool.not_true, Bool.false_eq_true, if_false] at h
    match him : importMod env sys "transformers" with
    | none =>
      simp only [him] at h
      cases h
    | some (m1, sys1) =>
      simp only [him] at h
      have hmem1 : aget sys1 mp = some T := by
        rw [importMod_preserves mp hmp him]
        exact hmem
      simp only [@importMod_of_mem env sys1 mp T hmem1] at h
      by_cases hs : env.specOk cfp
      · simp only [hs, Bool.not_true, Bool.false_eq_true, if_false] at h
        match he : env.execCustom cfp with
        | none =>
          simp only [he] at h
          cases h
        | some cm =>
          simp only [he, Except.ok.injEq, Prod.mk.injEq] at h
          exact h.1.symm
      · simp only [hs] at h
        simp at h
  · simp only [Bool.not_eq_true] at hf
    simp [hf] at h

/-- A successful apply with `backup=True`, fully characterised. -/
theorem patch_ok_true {env : Env} {p : Patcher} {sys : SysModules} {mp cfp : String}
    {t c : PyModule} {s' : SysModules}
    (h : loadPhase env sys mp cfp = .ok (t, c, s')) :
    patch_module_from_file env p sys mp cfp true =
      (true,
       ⟨aset p.applied_patches mp ⟨cfp, (transplant c t).1, true⟩,
        aset p.backup_modules mp (publicAttrs t)⟩,
       aset s' mp (aset (aset (transplant c t).2 "_runtime_patched" (Value.bool true))
           "_patch_source" (Value.str cfp))) := by
  simp [patch_module_from_file, h]

/-- A failed load phase makes apply return `False` with the patcher
untouched and the registry as mutated so far. -/
theorem patch_err {env : Env} {p : Patcher} {sys : SysModules} {mp cfp : String}
    {backup : Bool} {s' : SysModules}
    (h : loadPhase env sys mp cfp = .error s') :
    patch_module_from_file env p sys mp cfp backup = (false, p, s') := by
  simp [patch_module_from_file, h]

/-- A successful apply run means the load phase succeeded. -/
theorem patch_result_true {env : Env} {p : Patcher} {sys : SysModules}
    {mp cfp : String} {backup : Bool}
    (h : (patch_module_from_file env p sys mp cfp backup).1 = true) :
    ∃ t c s', loadPhase env sys mp cfp = .ok (t, c, s') := by
  match hl : loadPhase env sys mp cfp with
  | .error s' =>
    rw [patch_err hl] at h
    cases h
  | .ok (t, c, s') => exact ⟨t, c, s', rfl⟩

/-- A successful restore, fully characterised. -/
theorem restore_ok {p : Patcher} {sys : SysModules} {mp : String}
    {record : PatchRecord} {target : PyModule} {backup : List (String × Value)}
    (h1 : aget p.applied_patches mp = some record)
    (h2 : record.backup_available = true)
    (h3 : aget sys mp = some target)
    (h4 : aget p.backup_modules mp = some backup) :
    restore_module p sys mp =
      (true, ⟨adel p.applied_patches mp, adel p.backup_modules mp⟩,
       aset sys mp (adel (adel (writeAll target backup) "_runtime_patched")
           "_patch_source")) := by
  simp [restore_module, h1, h2, h3, h4]

/-- A successful restore run means every guard passed. -/
theorem restore_result_true {p : Patcher} {sys : SysModules} {mp : String}
    (h : (restore_module p sys mp).1 = true) :
    ∃ record target backup,
      aget p.applied_patches mp = some record ∧
      record.backup_available = true ∧
      aget sys mp = some target ∧
      aget p.backup_modules mp = some backup := by
  unfold restore_module at h
  match h1 : aget p.applied_patches mp with
  | none =>
    simp only [h1] at h
    cases h
  | some record =>
    simp only [h1] at h
    by_cases h2 : record.backup_available
    · simp only [h2, Bool.not_true, Bool.false_eq_true, if_false] at h
      match h3 : aget sys mp with
      | none =>
        simp only [h3] at h
        cases h
      | some target =>
        simp only [h3] at h
        match h4 : aget p.backup_modules mp with
        | none =>
          simp only [h4] at h
          cases h
        | some backup =>
          exact ⟨record, target, backup, rfl, h2, rfl, rfl⟩
    · simp only [Bool.not_eq_true] at h2
      simp [h2] at h

/-! ## Concrete environment used by witnesses and counterexamples

The target module `pkg.mod` exposes public attributes `foo = 1` and
`bar = "x"`.  The replacement file `custom.py` defines `foo = 2`; the
replacement file `custom2.py` defines `foo = 2` and a brand-new public
name `baz = 3`. -/

def exEnv : Env where
  fileExists := fun f => f = "custom.py" || f = "custom2.py"
  specOk := fun _ => true
  execCustom := fun f =>
    if f = "custom.py" then some [("foo", Value.nat 2)]
    else if f = "custom2.py" then some [("foo", Value.nat 2), ("baz", Value.nat 3)]
    else none
  importFresh := fun p =>
    if p = "transformers" then some []
    else if p = "pkg.mod" then some [("foo", Value.nat 1), ("bar", Value.str "x")]
    else none

/-- First apply of `custom.py` onto `pkg.mod` from a fresh patcher. -/
def exApply : Bool × Patcher × SysModules :=
  patch_module_from_file exEnv ⟨[], []⟩ [] "pkg.mod" "custom.py" true

/-- Restore of `pkg.mod` right after `exApply`. -/
def exRestore : Bool × Patcher × SysModules :=
  restore_module exApply.2.1 exApply.2.2 "pkg.mod"

/-! ## Claim C5 -/

/-- The sys.modules component of a successful apply. -/
theorem patch_ok_snd {env : Env} {p : Patcher} {sys : SysModules} {mp cfp : String}
    {backup : Bool} {t c : PyModule} {s' : SysModules}
    (h : loadPhase env sys mp cfp = .ok (t, c, s')) :
    (patch_module_from_file env p sys mp cfp backup).2.2 =
      aset s' mp (aset (aset (transplant c t).2 "_runtime_patched" (Value.bool true))
          "_patch_source" (Value.str cfp)) := by
  simp [patch_module_from_file, h]

/-- C5: for every target module path, immediately after a successful
`apply` the `verify` operation on that path returns true, and immediately
after a successful `restore` the `verify` operation on that path returns
false. -/
theorem verify_marker_consistency (env : Env) (p p' : Patcher)
    (sys sys' : SysModules) (mp cfp : String) (backup : Bool) :
    ((patch_module_from_file env p sys mp cfp backup).1 = true →
      verify_patch (patch_module_from_file env p sys mp cfp backup).2.2 mp = true) ∧
    ((restore_module p' sys' mp).1 = true →
      verify_patch (restore_module p' sys' mp).2.2 mp = false) := by
  constructor
  · intro h
    obtain ⟨t, c, s', hl⟩ := patch_result_true h
    rw [patch_ok_snd hl]
    simp only [verify_patch, aget_aset_self]
    rw [aget_aset_ne _ _ _ _ (by decide), aget_aset_self]
    rfl
  · intro h
    obtain ⟨record, target, backup, h1, h2, h3, h4⟩ := restore_result_true h
    rw [restore_ok h1 h2 h3 h4]
    simp only [verify_patch, aget_aset_self]
    rw [aget_adel_ne _ _ _ (by decide), aget_adel_self]
    rfl

/-- C5 witness: the property at the concrete run `exApply` / `exRestore`. -/
theorem verify_marker_consistency_witness :
    verify_patch exApply.2.2 "pkg.mod" = true ∧
    verify_patch exRestore.2.2 "pkg.mod" = false :=
  ⟨(verify_marker_consistency exEnv ⟨[], []⟩ exApply.2.1 [] exApply.2.2
      "pkg.mod" "custom.py" true).1 (by decide),
   (verify_marker_consistency exEnv ⟨[], []⟩ exApply.2.1 [] exApply.2.2
      "pkg.mod" "custom.py" true).2 (by decide)⟩

/-! ## Claim C6 -/

/-- C6: if the replacement source file path does not exist, `apply`
returns `False` (the exception is caught inside the call), the patcher
stores and the whole module registry — hence every attribute of the target
module — are exactly as before the call, and `verify` on the target path
(false before the call, as the target was not already patched) is false
afterwards. -/
theorem apply_missing_file (env : Env) (p : Patcher) (sys : SysModules)
    (mp cfp : String) (backup : Bool)
    (hfile : env.fileExists cfp = false)
    (hver : verify_patch sys mp = false) :
    patch_module_from_file env p sys mp cfp backup = (false, p, sys) ∧
    verify_patch (patch_module_from_file env p sys mp cfp backup).2.2 mp = false := by
  have hl : loadPhase env sys mp cfp = .error sys := by
    simp [loadPhase, hfile]
  refine ⟨patch_err hl, ?_⟩
  rw [patch_err hl]
  exact hver

/-- C6 witness: a concrete apply of a missing file. -/
theorem apply_missing_file_witness :
    patch_module_from_file exEnv ⟨[], []⟩ [] "pkg.mod" "missing.py" true
      = (false, ⟨[], []⟩, []) ∧
    verify_patch (patch_module_from_file exEnv ⟨[], []⟩ [] "pkg.mod" "missing.py" true).2.2
      "pkg.mod" = false :=
  apply_missing_file exEnv ⟨[], []⟩ [] "pkg.mod" "missing.py" true (by decide) (by decide)

/-! ## Claim C7 -/

/-- C7: calling `restore` on a target path that was never patched (no
Patch Record exists for it) returns `False` without raising and leaves the
Backup Ledger, the Patch Record set, and the whole module registry — hence
the target module — completely unchanged. -/
theorem restore_unpatched (p : Patcher) (sys : SysModules) (mp : String)
    (h : aget p.applied_patches mp = none) :
    restore_module p sys mp = (false, p, sys) := by
  simp [restore_module, h]

/-- C7 witness: restore on a fresh patcher. -/
theorem restore_unpatched_witness :
    restore_module ⟨[], []⟩ [("pkg.mod", [("foo", Value.nat 1)])] "pkg.mod"
      = (false, ⟨[], []⟩, [("pkg.mod", [("foo", Value.nat 1)])]) :=
  restore_unpatched ⟨[], []⟩ [("pkg.mod", [("foo", Value.nat 1)])] "pkg.mod" (by decide)

/-! ## Claim C3 -/

/-- The paired-stores invariant of the claim: a target path has a Backup
Snapshot exactly when it has a Patch Record, and every record on file says
its backup is available. -/
def PairedInv (p : Patcher) : Prop :=
  (∀ k, (aget p.applied_patches k).isSome = (aget p.backup_modules k).isSome) ∧
  (∀ k r, aget p.applied_patches k = some r → r.backup_available = true)

/-- Every failing restore returns `(False, p, sys)`: nothing is mutated. -/
theorem restore_fail {p : Patcher} {sys : SysModules} {mp : String}
    (h : (restore_module p sys mp).1 = false) :
    restore_module p sys mp = (false, p, sys) := by
  unfold restore_module at h ⊢
  match h1 : aget p.applied_patches mp with
  | none => simp
  | some record =>
    simp only [h1] at h ⊢
    by_cases h2 : record.backup_available
    · simp only [h2, Bool.not_true, Bool.false_eq_true, if_false] at h ⊢
      match h3 : aget sys mp with
      | none => simp
      | some target =>
        simp only [h3] at h ⊢
        match h4 : aget p.backup_modules mp with
        | none => simp
        | some backup =>
          simp only [h4] at h
          simp at h
    · simp only [Bool.not_eq_true] at h2
      simp [h2]

/-- C3 (amended): the pairing invariant is preserved by `apply` with
backup enabled (the default) and by `restore`; the two stores gain and
lose the target path together. -/
theorem paired_stores_preserved (env : Env) (p : Patcher) (sys : SysModules)
    (mp cfp : String) (hinv : PairedInv p) :
    PairedInv (patch_module_from_file env p sys mp cfp true).2.1 ∧
    PairedInv (restore_module p sys mp).2.1 := by
  constructor
  · match hl : loadPhase env sys mp cfp with
    | .error s2 =>
      rw [patch_err hl]
      exact hinv
    | .ok (t, c, s2) =>
      rw [patch_ok_true hl]
      constructor
      · intro k
        by_cases hk : k = mp
        · subst hk
          show (aget (aset p.applied_patches k _) k).isSome
            = (aget (aset p.backup_modules k _) k).isSome
          rw [aget_aset_self, aget_aset_self]
          rfl
        · show (aget (aset p.applied_patches mp _) k).isSome
            = (aget (aset p.backup_modules mp _) k).isSome
          rw [aget_aset_ne _ _ _ _ hk, aget_aset_ne _ _ _ _ hk]
          exact hinv.1 k
      · intro k r hr
        by_cases hk : k = mp
        · subst hk
          have hr2 : aget (aset p.applied_patches k
              ⟨cfp, (transplant c t).1, true⟩) k = some r := hr
          rw [aget_aset_self] at hr2
          cases hr2
          rfl
        · have hr2 : aget (aset p.applied_patches mp
              ⟨cfp, (transplant c t).1, true⟩) k = some r := hr
          rw [aget_aset_ne _ _ _ _ hk] at hr2
          exact hinv.2 k r hr2
  · by_cases hres : (restore_module p sys mp).1 = true
    · obtain ⟨record, target, backup, ha, hb, hc, hd⟩ := restore_result_true hres
      rw [restore_ok ha hb hc hd]
      constructor
      · intro k
        by_cases hk : k = mp
        · subst hk
          show (aget (adel p.applied_patches k) k).isSome
            = (aget (adel p.backup_modules k) k).isSome
          rw [aget_adel_self, aget_adel_self]
          rfl
        · show (aget (adel p.applied_patches mp) k).isSome
            = (aget (adel p.backup_modules mp) k).isSome
          rw [aget_adel_ne _ _ _ hk, aget_adel_ne _ _ _ hk]
          exact hinv.1 k
      · intro k r hk
        by_cases hkm : k = mp
        · subst hkm
          have hk2 : aget (adel p.applied_patches k) k = some r := hk
          rw [aget_adel_self] at hk2
          cases hk2
        · have hk2 : aget (adel p.applied_patches mp) k = some r := hk
          rw [aget_adel_ne _ _ _ hkm] at hk2
          exact hinv.2 k r hk2
    · rw [restore_fail (Bool.not_eq_true _ |>.mp hres)]
      exact hinv

/-- C3 counterexample: `apply` with `backup=False` (a mode the public
method exposes) records a Patch Record for `pkg.mod` without any Backup
Ledger entry, so the two stores are not paired after a public operation. -/
theorem paired_stores_cex :
    (patch_module_from_file exEnv ⟨[], []⟩ [] "pkg.mod" "custom.py" false).1 = true ∧
    (aget (patch_module_from_file exEnv ⟨[], []⟩ []
        "pkg.mod" "custom.py" false).2.1.applied_patches "pkg.mod").isSome = true ∧
    (aget (patch_module_from_file exEnv ⟨[], []⟩ []
        "pkg.mod" "custom.py" false).2.1.backup_modules "pkg.mod").isSome = false := by
  decide

/-- C3 witness: the preservation theorem applied to a fresh patcher. -/
theorem paired_stores_preserved_witness :
    PairedInv (patch_module_from_file exEnv ⟨[], []⟩ [] "pkg.mod" "custom.py" true).2.1 ∧
    PairedInv (restore_module ⟨[], []⟩ [] "pkg.mod").2.1 :=
  paired_stores_preserved exEnv ⟨[], []⟩ [] "pkg.mod" "custom.py"
    ⟨fun _ => rfl, fun _ _ h => by cases h⟩

/-! ## Claim C10 -/

/-- C10: the Symbol Transplanter enumerates the replacement module via its
full attribute directory, so a public name that the replacement module
merely imported (bound by its imports, not redefined by its top level) is
visible in its namespace, is written onto the target module with its
value, and is included in the returned transplant count, which counts
every public directory name. -/
theorem transplant_enumerates_all (imports defs : List (String × Value))
    (tgt : PyModule) (n : String) (v : Value)
    (hnd : (imports.map Prod.fst).Nodup)
    (himp : aget imports n = some v)
    (hndef : aget defs n = none)
    (hpub : isInternalName n = false) :
    aget (execNamespace imports defs) n = some v ∧
    n ∈ publicNames (execNamespace imports defs) ∧
    aget (transplant (execNamespace imports defs) tgt).2 n = some v ∧
    (transplant (execNamespace imports defs) tgt).1
      = (publicNames (execNamespace imports defs)).length := by
  have hd : n ∉ defs.map Prod.fst := by
    intro hmem
    have hs := (aget_isSome_iff_mem_keys defs n).mpr hmem
    rw [hndef] at hs
    cases hs
  have h1 : aget (execNamespace imports defs) n = some v := by
    unfold execNamespace
    rw [aget_writeAll_not_mem defs _ n hd]
    exact aget_writeAll_mem_nodup imports [] n v hnd (aget_mem himp)
  refine ⟨h1, mem_publicNames.mpr ⟨mem_keys_of_aget h1, hpub⟩, ?_, ?_⟩
  · rw [transplant_eq]
    exact aget_writeAll_mem_nodup _ tgt n v (publicAttrs_keys_nodup _)
      (mem_publicAttrs.mpr ⟨h1, hpub⟩)
  · rw [transplant_eq]
    exact publicAttrs_length _

/-- C10 witness: a replacement module that imports `helper` and defines
`foo`; both are transplanted and both are counted. -/
theorem transplant_enumerates_all_witness :
    aget (execNamespace [("helper", Value.nat 7)] [("foo", Value.nat 2)]) "helper"
      = some (Value.nat 7) ∧
    "helper" ∈ publicNames (execNamespace [("helper", Value.nat 7)] [("foo", Value.nat 2)]) ∧
    aget (transplant (execNamespace [("helper", Value.nat 7)] [("foo", Value.nat 2)])
        [("foo", Value.nat 1)]).2 "helper" = some (Value.nat 7) ∧
    (transplant (execNamespace [("helper", Value.nat 7)] [("foo", Value.nat 2)])
        [("foo", Value.nat 1)]).1
      = (publicNames (execNamespace [("helper", Value.nat 7)] [("foo", Value.nat 2)])).length :=
  transplant_enumerates_all [("helper", Value.nat 7)] [("foo", Value.nat 2)]
    [("foo", Value.nat 1)] "helper" (Value.nat 7) (by decide) (by decide) (by decide) (by decide)

/-! ## Claim C1 -/

/-- Second apply of `custom.py` onto `pkg.mod`, right after `exApply`. -/
def exApply2 : Bool × Patcher × SysModules :=
  patch_module_from_file exEnv exApply.2.1 exApply.2.2 "pkg.mod" "custom.py" true

/-- C1 counterexample: both applies succeed, yet the Backup Snapshot after
the second apply differs from the one captured on the first apply —
fixed_patch.py line 82 re-creates `self.backup_modules[module_path]`
unconditionally, snapshotting the already-patched module. -/
theorem idempotent_backup_cex :
    exApply.1 = true ∧ exApply2.1 = true ∧
    aget exApply.2.1.backup_modules "pkg.mod"
      = some [("foo", Value.nat 1), ("bar", Value.str "x")] ∧
    aget exApply2.2.1.backup_modules "pkg.mod"
      = some [("foo", Value.nat 2), ("bar", Value.str "x")] ∧
    aget exApply2.2.1.backup_modules "pkg.mod"
      ≠ aget exApply.2.1.backup_modules "pkg.mod" := by
  decide

/-- C1 (amended): a second successful apply for an already-registered
target path overwrites the stored Backup Snapshot with the public
attributes the (already patched) registered module has just before the
second call — not the snapshot captured on the first call. -/
theorem second_apply_overwrites_backup (env : Env) (p : Patcher) (sys : SysModules)
    (mp cfp : String) (T : PyModule)
    (hmp : mp ≠ "transformers")
    (hreg : aget (patch_module_from_file env p sys mp cfp true).2.2 mp = some T)
    (h2 : (patch_module_from_file env (patch_module_from_file env p sys mp cfp true).2.1
        (patch_module_from_file env p sys mp cfp true).2.2 mp cfp true).1 = true) :
    aget (patch_module_from_file env (patch_module_from_file env p sys mp cfp true).2.1
        (patch_module_from_file env p sys mp cfp true).2.2 mp cfp true).2.1.backup_modules
      mp = some (publicAttrs T) := by
  obtain ⟨t, c, s', hl⟩ := patch_result_true h2
  have ht : t = T := loadPhase_target_of_mem hmp hreg hl
  rw [patch_ok_true hl]
  show aget (aset _ mp (publicAttrs t)) mp = some (publicAttrs T)
  rw [aget_aset_self, ht]

/-- C1 witness: the amended overwrite fact at the concrete double apply. -/
theorem second_apply_overwrites_backup_witness :
    aget exApply2.2.1.backup_modules "pkg.mod"
      = some (publicAttrs [("foo", Value.nat 2), ("bar", Value.str "x"),
          ("_runtime_patched", Value.bool true),
          ("_patch_source", Value.str "custom.py")]) :=
  second_apply_overwrites_backup exEnv ⟨[], []⟩ [] "pkg.mod" "custom.py"
    [("foo", Value.nat 2), ("bar", Value.str "x"),
     ("_runtime_patched", Value.bool true), ("_patch_source", Value.str "custom.py")]
    (by decide) (by decide) (by decide)

/-! ## Claim C2 -/

theorem not_mem_publicAttrs_keys {m : PyModule} {k : String}
    (h : aget m k = none) : k ∉ (publicAttrs m).map Prod.fst := by
  intro hmem
  rcases List.mem_map.mp hmem with ⟨q, hq, hfst⟩
  obtain ⟨a, b⟩ := q
  have ha : a = k := hfst
  subst ha
  have := (mem_publicAttrs.mp hq).1
  rw [h] at this
  cases this

/-- Apply of `custom2.py` (which introduces the new public name `baz`)
onto `pkg.mod` from a fresh patcher. -/
def exApplyB : Bool × Patcher × SysModules :=
  patch_module_from_file exEnv ⟨[], []⟩ [] "pkg.mod" "custom2.py" true

/-- Restore of `pkg.mod` right after `exApplyB`. -/
def exRestoreB : Bool × Patcher × SysModules :=
  restore_module exApplyB.2.1 exApplyB.2.2 "pkg.mod"

/-- C2 counterexample: apply then restore succeed, yet the public name
`baz`, introduced by the patch and absent from the original attribute set,
is still present on the target after restore — restore only writes the
backed-up names back and never deletes patch-introduced ones. -/
theorem roundtrip_cex :
    exApplyB.1 = true ∧ exRestoreB.1 = true ∧
    "baz" ∉ publicNames ((exEnv.importFresh "pkg.mod").getD []) ∧
    "baz" ∈ publicNames ((aget exRestoreB.2.2 "pkg.mod").getD []) ∧
    aget ((aget exRestoreB.2.2 "pkg.mod").getD []) "baz" = some (Value.nat 3) := by
  decide

/-- C2 (amended): after a successful apply followed by a successful
restore, every public attribute the target exposed before patching is
bound to its pre-patch value again, but a public name introduced by the
replacement module that was absent before patching remains present (with
the replacement's value): the final public attribute set is the original
one extended by the patch-introduced names, not the original set alone. -/
theorem apply_restore_roundtrip (env : Env) (p : Patcher) (sys : SysModules)
    (mp cfp : String) (t0 c : PyModule) (s' : SysModules)
    (hl : loadPhase env sys mp cfp = .ok (t0, c, s')) :
    (patch_module_from_file env p sys mp cfp true).1 = true ∧
    (restore_module (patch_module_from_file env p sys mp cfp true).2.1
      (patch_module_from_file env p sys mp cfp true).2.2 mp).1 = true ∧
    ∃ tf, aget (restore_module (patch_module_from_file env p sys mp cfp true).2.1
        (patch_module_from_file env p sys mp cfp true).2.2 mp).2.2 mp = some tf ∧
      (∀ n v, aget t0 n = some v → isInternalName n = false → aget tf n = some v) ∧
      (∀ n v, aget c n = some v → isInternalName n = false → aget t0 n = none →
        aget tf n = some v) := by
  rw [patch_ok_true hl]
  have h1 : aget (aset p.applied_patches mp ⟨cfp, (transplant c t0).1, true⟩) mp
      = some ⟨cfp, (transplant c t0).1, true⟩ := aget_aset_self _ _ _
  have h3 : aget (aset s' mp (aset (aset (transplant c t0).2 "_runtime_patched"
        (Value.bool true)) "_patch_source" (Value.str cfp))) mp
      = some (aset (aset (transplant c t0).2 "_runtime_patched"
        (Value.bool true)) "_patch_source" (Value.str cfp)) := aget_aset_self _ _ _
  have h4 : aget (aset p.backup_modules mp (publicAttrs t0)) mp
      = some (publicAttrs t0) := aget_aset_self _ _ _
  rw [restore_ok h1 rfl h3 h4]
  refine ⟨rfl, rfl,
    adel (adel (writeAll (aset (aset (transplant c t0).2 "_runtime_patched"
        (Value.bool true)) "_patch_source" (Value.str cfp)) (publicAttrs t0))
      "_runtime_patched") "_patch_source",
    aget_aset_self _ _ _, ?_, ?_⟩
  · intro n v hv hpub
    obtain ⟨hne1, hne2⟩ := public_ne_markers hpub
    rw [aget_adel_ne _ _ _ hne2, aget_adel_ne _ _ _ hne1]
    exact aget_writeAll_mem_nodup _ _ n v (publicAttrs_keys_nodup t0)
      (mem_publicAttrs.mpr ⟨hv, hpub⟩)
  · intro n v hc0 hpub ht0
    obtain ⟨hne1, hne2⟩ := public_ne_markers hpub
    rw [aget_adel_ne _ _ _ hne2, aget_adel_ne _ _ _ hne1]
    rw [aget_writeAll_not_mem _ _ n (not_mem_publicAttrs_keys ht0)]
    rw [aget_aset_ne _ _ _ _ hne2, aget_aset_ne _ _ _ _ hne1]
    rw [transplant_eq]
    exact aget_writeAll_mem_nodup _ _ n v (publicAttrs_keys_nodup c)
      (mem_publicAttrs.mpr ⟨hc0, hpub⟩)

/-- C2 witness: the amended round-trip at the concrete `custom2.py` run:
`foo` is back to its original value and the patch-introduced `baz` is
still present. -/
theorem apply_restore_roundtrip_witness :
    aget ((aget exRestoreB.2.2 "pkg.mod").getD []) "foo" = some (Value.nat 1) ∧
    aget ((aget exRestoreB.2.2 "pkg.mod").getD []) "baz" = some (Value.nat 3) := by
  have h := apply_restore_roundtrip exEnv ⟨[], []⟩ [] "pkg.mod" "custom2.py"
    [("foo", Value.nat 1), ("bar", Value.str "x")]
    [("foo", Value.nat 2), ("baz", Value.nat 3)]
    [("transformers", []), ("pkg.mod", [("foo", Value.nat 1), ("bar", Value.str "x")])]
    (by rfl)
  obtain ⟨-, -, tf, htf, hold, hnew⟩ := h
  have htf2 : aget exRestoreB.2.2 "pkg.mod" = some tf := htf
  rw [htf2]
  exact ⟨hold "foo" (Value.nat 1) (by decide) (by decide),
         hnew "baz" (Value.nat 3) (by decide) (by decide) (by decide)⟩

/-! ## Claim C4 -/

/-- C4 counterexample: for the replacement line `from ...util import
helper` under target `a.b.c.mod`, the Import Rewriter does NOT produce
`from a.util import helper`; the line matches none of its five fixed
patterns and is passed through unchanged. -/
theorem import_rewriter_scenarioB_cex :
    rewriteRelativeImports "from ...util import helper"
      = "from ...util import helper" ∧
    rewriteRelativeImports "from ...util import helper"
      ≠ "from a.util import helper" := by
  decide

/-- C4 (amended): the Import Rewriter is a fixed table of five textual
substitutions specific to the mllama processor.  Each table entry agrees
with the walk-up-one-level-per-dot resolution rule at the hardcoded target
`transformers.models.mllama.processing_mllama` (and that rule does give
`a.util` for `from ...util` under `a.b.c.mod`), but any statement outside
the table — including `from ...util import helper` — is left unmodified
rather than resolved. -/
theorem import_rewriter_fixed_table :
    rewriteRelativeImports "from ...feature_extraction_utils import BatchFeature"
      = "from transformers.feature_extraction_utils import BatchFeature" ∧
    rewriteRelativeImports "from ...image_utils import ImageInput"
      = "from transformers.image_utils import ImageInput" ∧
    rewriteRelativeImports
        "from ...processing_utils import ImagesKwargs, ProcessingKwargs, ProcessorMixin, Unpack"
      = "from transformers.processing_utils import ImagesKwargs, ProcessingKwargs, ProcessorMixin, Unpack" ∧
    rewriteRelativeImports "from ...tokenization_utils_base import BatchEncoding"
      = "from transformers.tokenization_utils_base import BatchEncoding" ∧
    rewriteRelativeImports "from .image_processing_mllama import make_list_of_images"
      = "from transformers.models.mllama.image_processing_mllama import make_list_of_images" ∧
    specResolveRelative mllamaTarget 3 "feature_extraction_utils"
      = "transformers.feature_extraction_utils" ∧
    specResolveRelative mllamaTarget 3 "image_utils" = "transformers.image_utils" ∧
    specResolveRelative mllamaTarget 3 "processing_utils"
      = "transformers.processing_utils" ∧
    specResolveRelative mllamaTarget 3 "tokenization_utils_base"
      = "transformers.tokenization_utils_base" ∧
    specResolveRelative mllamaTarget 1 "image_processing_mllama"
      = "transformers.models.mllama.image_processing_mllama" ∧
    specResolveRelative "a.b.c.mod" 3 "util" = "a.util" ∧
    rewriteRelativeImports "from ...util import helper"
      = "from ...util import helper" := by
  decide

/-! ## Claim C8 -/

/-- C8: the scoped patch context calls `apply` first, hands the apply
result to the body, propagates the body's outcome (also when the body
raises, modelled by `Except.error`), and its trace contains exactly one
`restore` call — on the same fixed target path — when apply succeeded and
no restore call when apply failed. -/
theorem scoped_context_restore_iff_apply (α : Type) (env : EnvWithDefault)
    (sys : SysModules) (cfp : Option String)
    (body : Bool → SysModules → Except Unit α × SysModules) :
    (patched_mllama_processor env sys cfp body).1
      = (body (patch_mllama_processor env ⟨[], []⟩ sys cfp).1
          (patch_mllama_processor env ⟨[], []⟩ sys cfp).2.2).1 ∧
    (patched_mllama_processor env sys cfp body).2.2
      = PEvent.applyCall mllamaTarget (patch_mllama_processor env ⟨[], []⟩ sys cfp).1 ::
        (if (patch_mllama_processor env ⟨[], []⟩ sys cfp).1 then
          [PEvent.restoreCall mllamaTarget
            (restore_module (patch_mllama_processor env ⟨[], []⟩ sys cfp).2.1
              (body (patch_mllama_processor env ⟨[], []⟩ sys cfp).1
                (patch_mllama_processor env ⟨[], []⟩ sys cfp).2.2).2 mllamaTarget).1]
         else []) ∧
    ((patched_mllama_processor env sys cfp body).2.2.countP
        (fun e => match e with
          | PEvent.restoreCall _ _ => true
          | PEvent.applyCall _ _ => false))
      = (if (patch_mllama_processor env ⟨[], []⟩ sys cfp).1 then 1 else 0) := by
  by_cases h : (patch_mllama_processor env ⟨[], []⟩ sys cfp).1 = true
  · refine ⟨?_, ?_, ?_⟩ <;>
      simp [patched_mllama_processor, h, List.countP_cons, List.countP_nil]
  · have h2 : (patch_mllama_processor env ⟨[], []⟩ sys cfp).1 = false :=
      Bool.not_eq_true _ |>.mp h
    refine ⟨?_, ?_, ?_⟩ <;>
      simp [patched_mllama_processor, h2, List.countP_cons, List.countP_nil]

/-! ## Claim C9 -/

/-- A concrete heap: the manager's `applied_patches` dict lives at address
0 and maps `pkg.mod` to the record object at address 0. -/
def exHeap : HeapModel.Heap :=
  ⟨[(0, [("pkg.mod", 0)])], [(0, ⟨"custom.py", 1, true⟩)], 1⟩

/-- The copy returned by `list_patches` on `exHeap`. -/
def exCopy : Nat × HeapModel.Heap := HeapModel.list_patches exHeap 0

/-- The caller mutates the record object it reached through the returned
copy (`patches["pkg.mod"]`), setting its patch count to 999. -/
def exCallerMutated : HeapModel.Heap :=
  HeapModel.recWrite exCopy.2
    ((aget ((aget exCopy.2.dicts exCopy.1).getD []) "pkg.mod").getD 99)
    ⟨"custom.py", 999, true⟩

/-- C9 counterexample: `list_patches` returns a shallow copy, so mutating
a per-target record value reached through the returned mapping changes
the record the Patch Manager itself sees. -/
theorem list_patches_copy_cex :
    HeapModel.managerRecord exHeap 0 "pkg.mod" = some ⟨"custom.py", 1, true⟩ ∧
    HeapModel.managerRecord exCallerMutated 0 "pkg.mod"
      = some ⟨"custom.py", 999, true⟩ ∧
    HeapModel.managerRecord exCallerMutated 0 "pkg.mod"
      ≠ HeapModel.managerRecord exHeap 0 "pkg.mod" := by
  decide

/-- C9 (amended): `list_patches` returns a shallow copy.  The top-level
mapping is a fresh object holding the same entries, so rebinding entries
of the returned mapping leaves the manager's own mapping unchanged; but
the per-target record objects are shared by reference, so mutating a
record reached through the returned mapping does change the manager's
record state. -/
theorem list_patches_shallow_copy (h : HeapModel.Heap) (appliedAddr : Nat)
    (hfresh : ∀ a ∈ h.dicts.map Prod.fst, a < h.fresh)
    (happ : appliedAddr ∈ h.dicts.map Prod.fst) :
    (HeapModel.list_patches h appliedAddr).1 ≠ appliedAddr ∧
    aget (HeapModel.list_patches h appliedAddr).2.dicts appliedAddr
      = aget h.dicts appliedAddr ∧
    aget (HeapModel.list_patches h appliedAddr).2.dicts
        (HeapModel.list_patches h appliedAddr).1
      = some ((aget h.dicts appliedAddr).getD []) ∧
    (∀ k ra, aget (HeapModel.dictWrite (HeapModel.list_patches h appliedAddr).2
        (HeapModel.list_patches h appliedAddr).1 k ra).dicts appliedAddr
      = aget h.dicts appliedAddr) ∧
    (∀ path ra rec2, aget ((aget h.dicts appliedAddr).getD []) path = some ra →
      HeapModel.managerRecord
        (HeapModel.recWrite (HeapModel.list_patches h appliedAddr).2 ra rec2)
        appliedAddr path = some rec2) := by
  have hlt : appliedAddr < h.fresh := hfresh appliedAddr happ
  have hne : appliedAddr ≠ h.fresh := Nat.ne_of_lt hlt
  obtain ⟨d, hd⟩ := Option.isSome_iff_exists.mp
    ((aget_isSome_iff_mem_keys h.dicts appliedAddr).mpr happ)
  have hpres : aget (HeapModel.list_patches h appliedAddr).2.dicts appliedAddr
      = aget h.dicts appliedAddr := by
    show aget (aset h.dicts h.fresh _) appliedAddr = aget h.dicts appliedAddr
    exact aget_aset_ne _ _ _ _ hne
  refine ⟨Ne.symm hne, hpres, ?_, ?_, ?_⟩
  · show aget (aset h.dicts h.fresh _) h.fresh = _
    exact aget_aset_self _ _ _
  · intro k ra
    show aget (aset (aset h.dicts h.fresh _) h.fresh _) appliedAddr = _
    rw [aget_aset_ne _ _ _ _ hne]
    exact aget_aset_ne _ _ _ _ hne
  · intro path ra rec2 hpath
    rw [hd, Option.getD_some] at hpath
    have hdicts : aget (HeapModel.recWrite
        (HeapModel.list_patches h appliedAddr).2 ra rec2).dicts appliedAddr
        = some d := hpres.trans hd
    simp only [HeapModel.managerRecord, hdicts, hpath]
    show aget (aset (HeapModel.list_patches h appliedAddr).2.recs ra rec2) ra
      = some rec2
    exact aget_aset_self _ _ _

/-- C9 witness: the shallow-copy facts at the concrete heap `exHeap`. -/
theorem list_patches_shallow_copy_witness :
    (HeapModel.list_patches exHeap 0).1 ≠ 0 ∧
    aget (HeapModel.dictWrite (HeapModel.list_patches exHeap 0).2
        (HeapModel.list_patches exHeap 0).1 "other.mod" 5).dicts 0
      = aget exHeap.dicts 0 ∧
    HeapModel.managerRecord
        (HeapModel.recWrite (HeapModel.list_patches exHeap 0).2 0
          ⟨"custom.py", 999, true⟩) 0 "pkg.mod"
      = some ⟨"custom.py", 999, true⟩ := by
  have h := list_patches_shallow_copy exHeap 0 (by decide) (by decide)
  exact ⟨h.1, h.2.2.2.1 "other.mod" 5,
    h.2.2.2.2 "pkg.mod" 0 ⟨"custom.py", 999, true⟩ (by decide)⟩
